import Mathlib

/-!
Verification of the venue email-template rendering pipeline
(Express server: Handlebars compile with noEscape, juice CSS inlining,
JSON file stores, render/preview/schema HTTP handlers).

Shallow embedding conventions:
* JSON objects (venue records, override mappings) are association lists
  `List (String × String)` looked up with `List.lookup`; values are
  string-typed, matching the venue records (text, URL, color).
* The filesystem stores are total functions from key to `Option` record,
  abstracting the path-plus-JSON encoding; per the storage contract each
  key corresponds to one record and a read of an absent key fails with
  ENOENT (fs.readFile on a missing path).
* The two external libraries invoked by the server, Handlebars (with
  `noEscape: true`) and juice (with `applyStyleTags: true,
  removeStyleTags: false`), are modelled from the spec: Handlebars as a
  single-pass scanner over the markup characters, juice as a document-tree
  transformation.
-/

namespace EmailTpl

/-- A JSON object: a flat mapping from variable name to string value. -/
abbrev JsObj := List (String × String)

/-- Key set of a JSON object. -/
def keysOf (o : JsObj) : List String := o.map Prod.fst

/-- Lookup a variable in a JSON object, as the mapping it denotes. -/
def objLookup (o : JsObj) (k : String) : Option String := o.lookup k

/-! ### Template compiler (Handlebars with noEscape)

Modelled from the spec: `Handlebars.compile(tplSrc, { noEscape: true })`
applied to the effective variable mapping is an external library call; the
spec describes it as a single-pass scanner over the markup that substitutes
each `\x7b\x7bname\x7d\x7d` occurrence by the mapping's value for `name`
(verbatim, no HTML escaping) or by the empty string when `name` has no key,
and leaves everything else — in particular `[NAME]` deferred placeholders —
untouched. -/

/-- Scan the characters of a variable name up to the closing pair of braces,
returning the name characters and the remainder of the input. -/
def scanName : List Char → Option (List Char × List Char)
  | [] => none
  | c :: rest =>
    if c = '}' ∧ rest.head? = some '}' then some ([], rest.tail)
    else (scanName rest).map (fun p => (c :: p.1, p.2))

theorem scanName_length {cs nm r : List Char}
    (h : scanName cs = some (nm, r)) : nm.length + 2 + r.length = cs.length := by
  induction cs generalizing nm r with
  | nil => simp [scanName] at h
  | cons c rest ih =>
    rw [scanName] at h
    split at h
    · rename_i hc
      obtain ⟨hc1, hc2⟩ := hc
      cases rest with
      | nil => simp at hc2
      | cons d rest2 =>
        simp at hc2
        simp at h
        obtain ⟨h1, h2⟩ := h
        subst h1; subst h2
        simp
        omega
    · cases hsc : scanName rest with
      | none => rw [hsc] at h; simp at h
      | some p =>
        rw [hsc] at h
        simp at h
        obtain ⟨h1, h2⟩ := h
        subst h1; subst h2
        have := ih hsc
        simp [List.length_cons]
        omega

/-- Substitution performed for one resolved variable: the mapping's value
verbatim when the name is a key, the empty string otherwise. -/
def subst (M : String → Option String) (nm : List Char) : List Char :=
  ((M (String.mk nm)).getD "").data

/-- Single-pass scanner over the markup characters: each
`\x7b\x7bname\x7d\x7d` is substituted via `subst`; every other character
(including `[`, `]`, and a lone `\x7b`) is copied through unchanged. -/
def compileList (M : String → Option String) : List Char → List Char
  | [] => []
  | c :: rest =>
    if c = '{' ∧ rest.head? = some '{' then
      match h : scanName rest.tail with
      | some (nm, r) => subst M nm ++ compileList M r
      | none => c :: compileList M rest
    else c :: compileList M rest
termination_by cs => cs.length
decreasing_by
  · simp_wf
    have hlen := scanName_length h
    have htl : rest.tail.length ≤ rest.length := by
      cases rest <;> simp
    omega
  · simp
  · simp

/-- String-level compile: the compiled output of a template against an
effective variable mapping. The function is total: a missing key never
makes it fail. -/
def compileStr (M : String → Option String) (s : String) : String :=
  String.mk (compileList M s.data)

/-! ### Tokenised view of template markup

A template's markup text interleaves literal text, resolved variables
`\x7b\x7bname\x7d\x7d`, and deferred placeholders `[NAME]`. The claims
about the compiler quantify over templates presented as token lists;
`srcStr` reconstructs the markup text of a token list. -/

/-- One markup token: literal text, a resolved variable, or a deferred
placeholder. -/
inductive Tok where
  | lit (s : String)
  | var (n : String)
  | deferred (n : String)
deriving DecidableEq

/-- Characters a token contributes to the markup text. -/
def Tok.srcChars : Tok → List Char
  | .lit s => s.data
  | .var n => '{' :: '{' :: (n.data ++ ['}', '}'])
  | .deferred n => '[' :: (n.data ++ [']'])

/-- Characters a token contributes to the compiled output under mapping
`M`: literals and deferred placeholders verbatim, variables by `M`'s value
(empty string when the name is not a key). -/
def Tok.renderChars (M : String → Option String) : Tok → List Char
  | .lit s => s.data
  | .var n => ((M n).getD "").data
  | .deferred n => '[' :: (n.data ++ [']'])

/-- Markup text of a token. -/
def Tok.src (t : Tok) : String := String.mk t.srcChars

/-- Compiled output of a token under mapping `M`. -/
def Tok.render (M : String → Option String) (t : Tok) : String :=
  String.mk (t.renderChars M)

/-- Wellformedness of a token: literal text and placeholder names carry no
opening brace, variable names carry no closing brace, so the delimiters of
distinct tokens cannot interfere. -/
def Tok.wfb : Tok → Bool
  | .lit s => decide ('{' ∉ s.data)
  | .var n => decide ('}' ∉ n.data)
  | .deferred n => decide ('{' ∉ n.data)

/-- Markup characters of a token list. -/
def srcList : List Tok → List Char
  | [] => []
  | t :: ts => t.srcChars ++ srcList ts

/-- Compiled characters of a token list under mapping `M`. -/
def renderList (M : String → Option String) : List Tok → List Char
  | [] => []
  | t :: ts => t.renderChars M ++ renderList M ts

/-- Markup text of a token list. -/
def srcStr (ts : List Tok) : String := String.mk (srcList ts)

/-- Compiled output of a token list under mapping `M`. -/
def renderStr (M : String → Option String) (ts : List Tok) : String :=
  String.mk (renderList M ts)

/-- Wellformedness of a template given as a token list. -/
def wfTokens (ts : List Tok) : Bool := ts.all Tok.wfb

/-! ### Variable resolver

From the preview handler: `const vars = \x7b ...base, ...(overrides || \x7b\x7d) \x7d`
— a right-biased shallow merge of the persisted venue record with the
caller-supplied overrides. -/

/-- Right-biased shallow merge `\x7b ...base, ...ovr \x7d`: every entry of
`base` whose key also occurs in `ovr` is replaced by `ovr`'s entry, and
keys only in `ovr` are appended. -/
def spread (base ovr : JsObj) : JsObj :=
  base.filter (fun p => (ovr.lookup p.1).isNone) ++ ovr

/-! ### Stores

The template, venue and schema stores are directories of files keyed by
template/venue key (`data/templates/KEY.html.hbs`, `data/venues/KEY.json`,
`data/schemas/KEY.json`). Per the storage contract each key corresponds to
one record; the stores are modelled as functions from key to optional
record, and a read of an absent key fails the way `fs.readFile` does, with
an ENOENT error for the path. -/

/-- Filesystem read failure: `fs.readFile` rejects with ENOENT when the
path does not exist. -/
inductive FsError where
  | enoent (path : String)
deriving DecidableEq

/-- Input kind of a schema field (the frontend's `SchemaField.type`). -/
inductive FieldKind where
  | text
  | textarea
  | url
  | color
deriving DecidableEq

/-- One schema field descriptor: `\x7bkey, label, type, required?\x7d`. -/
structure SchemaField where
  key : String
  label : String
  kind : FieldKind
  required : Option Bool
deriving DecidableEq

/-- A template's optional field schema: `\x7btitle, fields\x7d`. -/
structure Schema where
  title : String
  fields : List SchemaField
deriving DecidableEq

/-- The server's three read stores plus the mutable venue store. -/
structure Stores where
  templates : String → Option String
  venues : String → Option JsObj
  schemas : String → Option Schema

/-- Read a template's markup from `data/templates/KEY.html.hbs`. -/
def loadTemplate (st : Stores) (templateKey : String) : Except FsError String :=
  match st.templates templateKey with
  | some tpl => .ok tpl
  | none => .error (.enoent ("data/templates/" ++ templateKey ++ ".html.hbs"))

/-- Read a venue record from `data/venues/KEY.json`. -/
def loadVenue (st : Stores) (venueKey : String) : Except FsError JsObj :=
  match st.venues venueKey with
  | some v => .ok v
  | none => .error (.enoent ("data/venues/" ++ venueKey ++ ".json"))

/-- Write a venue record to `data/venues/KEY.json`, fully replacing the
prior file contents (`fs.writeJson` truncates and rewrites the file). -/
def saveVenue (st : Stores) (venueKey : String) (payload : JsObj) : Stores :=
  { st with venues := fun k => if k = venueKey then some payload else st.venues k }

/-- Read a template's schema from `data/schemas/KEY.json`; the handler
checks `fs.pathExists` first and returns null when the file is absent, so
absence is not an error. -/
def loadSchema (st : Stores) (templateKey : String) : Option Schema :=
  st.schemas templateKey

/-! ### HTTP handlers

The render, preview and schema endpoints. The juice call
`inlineCss(html)` that each success path applies to the compiled HTML is
kept abstract at the string level (an arbitrary `inliner` function
parameter); its document-level behaviour is modelled separately below. -/

/-- Response of `GET /render/:templateKey`. -/
inductive RenderResult where
  | html (body : String)
  | badRequest (msg : String)
  | serverError (e : FsError)
deriving DecidableEq

/-- The guard `if (!venue)`: JavaScript's falsiness check on
`req.query.venue` is true when the parameter is absent and also when it is
the empty string. -/
def venueParamMissing : Option String → Bool
  | none => true
  | some s => s.isEmpty

/-- The `GET /render/:templateKey` handler: check the venue param, load
the template and the venue record (`Promise.all`, each read failing with
ENOENT when absent), compile with the venue record as mapping, inline, and
send the HTML; any rejection is caught and sent as a 500. -/
def renderHandler (st : Stores) (inliner : String → String)
    (templateKey : String) (venueParam : Option String) : RenderResult :=
  if venueParamMissing venueParam then .badRequest "Missing ?venue param"
  else
    match loadTemplate st templateKey with
    | .error e => .serverError e
    | .ok tplSrc =>
      match loadVenue st (venueParam.getD "") with
      | .error e => .serverError e
      | .ok vars => .html (inliner (compileStr (objLookup vars) tplSrc))

/-- Response of `POST /api/preview`. -/
inductive PreviewResult where
  | ok (html : String)
  | serverError (e : FsError)
deriving DecidableEq

/-- The `POST /api/preview` handler: load the template and the venue
record (both unconditionally, via `Promise.all`), merge
`\x7b ...base, ...(overrides || \x7b\x7d) \x7d`, compile, inline, and
reply `\x7bhtml\x7d`; any rejection is caught and sent as a 500. -/
def previewHandler (st : Stores) (inliner : String → String)
    (templateKey venueKey : String) (overrides : Option JsObj) : PreviewResult :=
  match loadTemplate st templateKey with
  | .error e => .serverError e
  | .ok tplSrc =>
    match loadVenue st venueKey with
    | .error e => .serverError e
    | .ok base =>
      .ok (inliner (compileStr (objLookup (spread base (overrides.getD []))) tplSrc))

/-- Response of `GET /api/schema/:templateKey`: always a 200 JSON body
`\x7bschema\x7d`, with `schema` null when absent. -/
inductive SchemaResult where
  | ok (schema : Option Schema)
deriving DecidableEq

/-- The `GET /api/schema/:templateKey` handler: reply with the loaded
schema, or null when the template has no schema file. The handler never
consults the template store. -/
def schemaHandler (st : Stores) (templateKey : String) : SchemaResult :=
  .ok (loadSchema st templateKey)

/-! ### CSS inliner

Modelled from the spec: `juice(html, \x7b applyStyleTags: true,
removeStyleTags: false \x7d)` is an external library call; the spec
describes it as moving the rules declared in `<style>` blocks into `style`
attributes on the elements they match, with pre-existing inline
declarations taking precedence over computed ones property by property,
and with the original `<style>` block(s) retained in the output. The HTML
document is modelled as a tree of text nodes, `<style>` blocks holding CSS
rules, and elements carrying a tag, an inline style attribute (a property
to value declaration list) and children. -/

/-- One CSS declaration: property and value. -/
abbrev CssDecl := String × String

/-- One CSS rule of a `<style>` block: a selector and its declarations. -/
structure CssRule where
  selector : String
  decls : List CssDecl
deriving DecidableEq

/-- An HTML document node. -/
inductive HNode where
  | text (s : String)
  | styleTag (rules : List CssRule)
  | elem (tag : String) (style : List CssDecl) (children : List HNode)

mutual

/-- Rules declared by the `<style>` blocks of a node, in document order. -/
def collectNode : HNode → List CssRule
  | .text _ => []
  | .styleTag rs => rs
  | .elem _ _ ch => collectNodes ch

/-- Rules declared by the `<style>` blocks of a node list. -/
def collectNodes : List HNode → List CssRule
  | [] => []
  | n :: ns => collectNode n ++ collectNodes ns

end

/-- Declarations the style rules compute for an element with the given
tag: the declarations of every rule whose selector matches, in rule
order. -/
def computedFor (rules : List CssRule) (tag : String) : List CssDecl :=
  ((rules.filter (fun r => r.selector = tag)).map CssRule.decls).flatten

/-- Merge computed declarations under an existing inline style attribute:
the pre-existing inline declarations take precedence property by
property. -/
def mergeDecls (existing computed : List CssDecl) : List CssDecl :=
  existing ++ computed.filter (fun d => (existing.lookup d.1).isNone)

mutual

/-- Apply the collected style rules to one node: elements get the merged
style attribute, `<style>` blocks and text are kept unchanged. -/
def applyRules (rules : List CssRule) : HNode → HNode
  | .text s => .text s
  | .styleTag rs => .styleTag rs
  | .elem tag st ch =>
      .elem tag (mergeDecls st (computedFor rules tag)) (applyRulesList rules ch)

/-- Apply the collected style rules to a node list. -/
def applyRulesList (rules : List CssRule) : List HNode → List HNode
  | [] => []
  | n :: ns => applyRules rules n :: applyRulesList rules ns

end

/-- The CSS inliner: collect the rules of every `<style>` block of the
document and apply them to every element, keeping the blocks in place. -/
def inlineCss (doc : List HNode) : List HNode :=
  applyRulesList (collectNodes doc) doc

mutual

/-- A node containing no `<style>` block. -/
def nodeNoStyle : HNode → Bool
  | .text _ => true
  | .styleTag _ => false
  | .elem _ _ ch => nodesNoStyle ch

/-- A node list containing no `<style>` block. -/
def nodesNoStyle : List HNode → Bool
  | [] => true
  | n :: ns => nodeNoStyle n && nodesNoStyle ns

end

/-! ### Fixtures used by the witnesses and counterexamples -/

/-- Markup of the spec's confirmation-template scenario. -/
def confirmationTpl : String := "<p>\x7b\x7bgreeting\x7d\x7d [FULLNAME]</p>"

/-- Token view of the confirmation template. -/
def confirmationToks : List Tok :=
  [Tok.lit "<p>", Tok.var "greeting", Tok.lit " ", Tok.deferred "FULLNAME",
   Tok.lit "</p>"]

/-- Store fixture: one confirmation template, one venue SoulBar with a
greeting, and no schemas. -/
def soulBarStores : Stores where
  templates := fun k => if k = "confirmation" then some confirmationTpl else none
  venues := fun k => if k = "SoulBar" then some [("greeting", "Welcome")] else none
  schemas := fun _ => none

/-! ### Scanner correctness -/

theorem scanName_exact {nm : List Char} (hnm : '}' ∉ nm) (rest : List Char) :
    scanName (nm ++ '}' :: '}' :: rest) = some (nm, rest) := by
  induction nm with
  | nil => simp [scanName]
  | cons a nm' ih =>
    have ha : a ≠ '}' := fun h => hnm (h ▸ List.mem_cons_self a nm')
    have hnm' : '}' ∉ nm' := fun h => hnm (List.mem_cons_of_mem a h)
    rw [List.cons_append, scanName]
    simp [ha, ih hnm']

theorem compileList_passthrough {cs : List Char} (hcs : '{' ∉ cs)
    (M : String → Option String) (rest : List Char) :
    compileList M (cs ++ rest) = cs ++ compileList M rest := by
  induction cs with
  | nil => simp
  | cons c cs' ih =>
    have hc : ¬(c = '{') := fun h => hcs (h ▸ List.mem_cons_self c cs')
    have hcs' : '{' ∉ cs' := fun h => hcs (List.mem_cons_of_mem c h)
    rw [List.cons_append, compileList]
    simp [hc, ih hcs']

theorem compileList_var {nm : List Char} (hnm : '}' ∉ nm)
    (M : String → Option String) (rest : List Char) :
    compileList M ('{' :: '{' :: (nm ++ '}' :: '}' :: rest)) =
      subst M nm ++ compileList M rest := by
  rw [compileList]
  simp only [List.head?_cons, List.tail_cons, and_self, if_pos, reduceIte]
  split
  · rename_i nm1 r heq
    rw [scanName_exact hnm] at heq
    simp only [Option.some.injEq, Prod.mk.injEq] at heq
    obtain ⟨h1, h2⟩ := heq
    rw [h1, h2]
  · rename_i heq
    rw [scanName_exact hnm] at heq
    simp at heq

theorem compileList_srcList (M : String → Option String) {ts : List Tok}
    (h : wfTokens ts = true) :
    compileList M (srcList ts) = renderList M ts := by
  induction ts with
  | nil => simp [srcList, renderList, compileList]
  | cons t ts ih =>
    rw [wfTokens, List.all_cons, Bool.and_eq_true] at h
    obtain ⟨ht, hts⟩ := h
    rw [srcList, renderList]
    cases t with
    | lit s =>
      have hs : '{' ∉ s.data := of_decide_eq_true ht
      rw [Tok.srcChars, Tok.renderChars, compileList_passthrough hs, ih hts]
    | var n =>
      have hn : '}' ∉ n.data := of_decide_eq_true ht
      have hshape : (('{' :: '{' :: (n.data ++ ['}', '}']) : List Char)
            ++ srcList ts)
          = '{' :: '{' :: (n.data ++ '}' :: '}' :: srcList ts) := by
        simp
      rw [Tok.srcChars, Tok.renderChars, hshape, compileList_var hn, ih hts]
      have : subst M n.data = ((M n).getD "").data := by
        rw [subst]
      rw [this]
    | deferred n =>
      have hn : '{' ∉ n.data := of_decide_eq_true ht
      have hcs : '{' ∉ ('[' :: (n.data ++ [']']) : List Char) := by
        intro hmem
        rcases List.mem_cons.mp hmem with h1 | h2
        · exact absurd h1.symm (by decide)
        · rcases List.mem_append.mp h2 with h3 | h4
          · exact hn h3
          · simp at h4
      rw [Tok.srcChars, Tok.renderChars, compileList_passthrough hcs, ih hts]

theorem compileStr_srcStr (M : String → Option String) {ts : List Tok}
    (h : wfTokens ts = true) : compileStr M (srcStr ts) = renderStr M ts := by
  rw [compileStr, srcStr, renderStr, compileList_srcList M h]

theorem renderList_append (M : String → Option String) (l r : List Tok) :
    renderList M (l ++ r) = renderList M l ++ renderList M r := by
  induction l with
  | nil => rw [List.nil_append, renderList, List.nil_append]
  | cons t l ih =>
    rw [List.cons_append, renderList, renderList, ih, List.append_assoc]

theorem renderStr_deferred_mem (M : String → Option String) {ts : List Tok}
    {n : String} (hn : Tok.deferred n ∈ ts) :
    ∃ pre post : String, renderStr M ts = pre ++ ("[" ++ n ++ "]") ++ post := by
  obtain ⟨l, r, rfl⟩ := List.append_of_mem hn
  refine ⟨String.mk (renderList M l), String.mk (renderList M r), ?_⟩
  apply String.ext
  show renderList M (l ++ Tok.deferred n :: r)
      = ((String.mk (renderList M l) ++ ("[" ++ n ++ "]"))
          ++ String.mk (renderList M r)).data
  rw [String.data_append, String.data_append, String.data_append,
    String.data_append]
  show renderList M (l ++ Tok.deferred n :: r)
      = renderList M l ++ (('[' :: []) ++ n.data ++ (']' :: []))
          ++ renderList M r
  rw [renderList_append]
  show renderList M l ++ renderList M (Tok.deferred n :: r)
      = renderList M l ++ (('[' :: []) ++ n.data ++ (']' :: []))
          ++ renderList M r
  rw [renderList, Tok.renderChars]
  simp

/-! ### Resolver lemmas -/

theorem lookup_filter_not_ovr (o : JsObj) {b : JsObj} {k : String}
    (h : o.lookup k = none) :
    List.lookup k (b.filter (fun p => (o.lookup p.1).isNone)) = b.lookup k := by
  induction b with
  | nil => rfl
  | cons p b ih =>
    obtain ⟨a, w⟩ := p
    by_cases hk : k = a
    · subst hk
      rw [List.filter_cons]
      simp only [h, Option.isNone_none, if_pos]
      rw [List.lookup_cons, List.lookup_cons]
      simp
    · have hb : (k == a) = false := beq_eq_false_iff_ne.mpr hk
      rw [List.filter_cons]
      by_cases hkeep : (o.lookup a).isNone = true
      · simp only [hkeep, if_pos]
        rw [List.lookup_cons, List.lookup_cons]
        simp only [hb]
        exact ih
      · simp only [hkeep, if_neg, Bool.false_eq_true, not_false_iff]
        rw [List.lookup_cons]
        simp only [hb]
        exact ih

theorem lookup_filter_in_ovr (o : JsObj) (b : JsObj) {k : String} {v : String}
    (h : o.lookup k = some v) :
    List.lookup k (b.filter (fun p => (o.lookup p.1).isNone)) = none := by
  rw [List.lookup_eq_none_iff]
  intro p hp
  rcases List.mem_filter.mp hp with ⟨_, hpred⟩
  rw [bne_iff_ne]
  intro hk
  rw [← hk, h] at hpred
  simp at hpred

/-- Extensional characterisation of the merge: override entries win,
otherwise the venue record's entry is used. -/
theorem objLookup_spread (base ovr : JsObj) (k : String) :
    objLookup (spread base ovr) k =
      match objLookup ovr k with
      | some v => some v
      | none => objLookup base k := by
  rw [objLookup, objLookup, objLookup, spread, List.lookup_append]
  cases h : ovr.lookup k with
  | none => rw [lookup_filter_not_ovr ovr h, Option.or_none]
  | some v => rw [lookup_filter_in_ovr ovr base h, Option.none_or]

theorem mem_keysOf_iff {o : JsObj} {k : String} :
    k ∈ keysOf o ↔ (objLookup o k).isSome = true := by
  rw [keysOf, objLookup, List.lookup_isSome_iff]
  constructor
  · intro h
    rcases List.mem_map.mp h with ⟨p, hp, hk⟩
    exact ⟨p, hp, beq_iff_eq.mpr hk.symm⟩
  · intro ⟨p, hp, he⟩
    exact List.mem_map.mpr ⟨p, hp, (beq_iff_eq.mp he).symm⟩

theorem spread_empty (base : JsObj) : spread base [] = base := by
  rw [spread, List.append_nil]
  rw [List.filter_eq_self.mpr]
  intro p _
  rw [List.lookup_nil]
  rfl

/-! ### Inliner lemmas -/

mutual

theorem collectNode_applyRules (rules : List CssRule) (n : HNode) :
    collectNode (applyRules rules n) = collectNode n := by
  cases n with
  | text s => rfl
  | styleTag rs => rfl
  | elem tag st ch =>
    rw [applyRules, collectNode, collectNode, collectNodes_applyRulesList]

theorem collectNodes_applyRulesList (rules : List CssRule) (ns : List HNode) :
    collectNodes (applyRulesList rules ns) = collectNodes ns := by
  cases ns with
  | nil => rfl
  | cons n ns =>
    rw [applyRulesList, collectNodes, collectNodes, collectNode_applyRules,
      collectNodes_applyRulesList]

end

mutual

theorem applyRules_nil_rules (n : HNode) : applyRules [] n = n := by
  cases n with
  | text s => rfl
  | styleTag rs => rfl
  | elem tag st ch =>
    rw [applyRules, applyRulesList_nil_rules]
    have hc : computedFor [] tag = [] := rfl
    rw [hc, mergeDecls]
    simp

theorem applyRulesList_nil_rules (ns : List HNode) : applyRulesList [] ns = ns := by
  cases ns with
  | nil => rfl
  | cons n ns =>
    rw [applyRulesList, applyRules_nil_rules, applyRulesList_nil_rules]

end

mutual

theorem collectNode_of_noStyle {n : HNode} (h : nodeNoStyle n = true) :
    collectNode n = [] := by
  cases n with
  | text s => rfl
  | styleTag rs => rw [nodeNoStyle] at h; exact absurd h (by simp)
  | elem tag st ch =>
    rw [nodeNoStyle] at h
    rw [collectNode, collectNodes_of_noStyle h]

theorem collectNodes_of_noStyle {ns : List HNode} (h : nodesNoStyle ns = true) :
    collectNodes ns = [] := by
  cases ns with
  | nil => rfl
  | cons n ns =>
    rw [nodesNoStyle, Bool.and_eq_true] at h
    rw [collectNodes, collectNode_of_noStyle h.1, collectNodes_of_noStyle h.2,
      List.append_nil]

end

theorem inlineCss_of_noStyle {doc : List HNode} (h : nodesNoStyle doc = true) :
    inlineCss doc = doc := by
  rw [inlineCss, collectNodes_of_noStyle h, applyRulesList_nil_rules]

theorem mergeDecls_existing_wins {existing : List CssDecl}
    (computed : List CssDecl) {p v : String}
    (h : existing.lookup p = some v) :
    (mergeDecls existing computed).lookup p = some v := by
  rw [mergeDecls, List.lookup_append, h]
  rfl

theorem mergeDecls_computed_fills {existing : List CssDecl}
    (computed : List CssDecl) {p : String}
    (h : existing.lookup p = none) :
    (mergeDecls existing computed).lookup p = computed.lookup p := by
  rw [mergeDecls, List.lookup_append, h, Option.none_or]
  exact lookup_filter_not_ovr existing h

/-! ### Claims -/

/-- C1: compiling a template against an effective variable mapping `M`
replaces every resolved-variable occurrence whose name is a key of `M` by
the corresponding value verbatim (no HTML escaping — the compile is
configured with noEscape), replaces every occurrence whose name is not a
key by the empty string, and never fails because of a missing key
(`compileStr` is total and the missing-key case renders as the empty
string, never an error). -/
theorem compile_substitutes_variables (M : String → Option String)
    (ts : List Tok) (h : wfTokens ts = true) :
    compileStr M (srcStr ts) = renderStr M ts
    ∧ (∀ n v, M n = some v → Tok.render M (Tok.var n) = v)
    ∧ (∀ n, M n = none → Tok.render M (Tok.var n) = "") := by
  refine ⟨compileStr_srcStr M h, ?_, ?_⟩
  · intro n v hv
    show String.mk (Tok.renderChars M (Tok.var n)) = v
    simp only [Tok.renderChars]
    rw [hv]
    rfl
  · intro n hn
    show String.mk (Tok.renderChars M (Tok.var n)) = ""
    simp only [Tok.renderChars]
    rw [hn]
    rfl

theorem compile_substitutes_variables_witness :
    wfTokens confirmationToks = true
    ∧ compileStr (objLookup [("greeting", "Welcome")]) (srcStr confirmationToks)
        = renderStr (objLookup [("greeting", "Welcome")]) confirmationToks :=
  ⟨by decide, (compile_substitutes_variables (objLookup [("greeting", "Welcome")])
      confirmationToks (by decide)).1⟩

/-- C2: every deferred placeholder `[NAME]` of the markup appears in the
compiled output completely unmodified — same brackets, same casing — even
when `NAME` is a key of the variable mapping (the mapping `M` below is
unconstrained), and the CSS inliner leaves text nodes unchanged, so the
placeholder also survives inlining. -/
theorem deferred_placeholders_pass_through (M : String → Option String)
    (ts : List Tok) (h : wfTokens ts = true) :
    (∀ n, Tok.deferred n ∈ ts →
      ∃ pre post : String,
        compileStr M (srcStr ts) = pre ++ ("[" ++ n ++ "]") ++ post)
    ∧ (∀ n, Tok.render M (Tok.deferred n) = (Tok.deferred n).src)
    ∧ (∀ rules s, applyRules rules (HNode.text s) = HNode.text s) := by
  refine ⟨?_, ?_, ?_⟩
  · intro n hn
    rw [compileStr_srcStr M h]
    exact renderStr_deferred_mem M hn
  · intro n
    rfl
  · intro rules s
    rfl

theorem deferred_placeholders_pass_through_witness :
    wfTokens confirmationToks = true
    ∧ Tok.deferred "FULLNAME" ∈ confirmationToks
    ∧ ∃ pre post : String,
        compileStr (objLookup [("greeting", "Welcome"), ("FULLNAME", "John")])
            (srcStr confirmationToks)
          = pre ++ ("[" ++ "FULLNAME" ++ "]") ++ post :=
  ⟨by decide, by decide,
    (deferred_placeholders_pass_through
        (objLookup [("greeting", "Welcome"), ("FULLNAME", "John")])
        confirmationToks (by decide)).1 "FULLNAME" (by decide)⟩

/-- C3: the resolver `spread venueRecord overrides` (the preview handler's
object spread) is the right-biased shallow merge: its key set is the union
of the two key sets, every key of the overrides maps to the override
value, every key only in the venue record maps to the record's value, and
merging with empty overrides returns the venue record itself. -/
theorem resolve_right_biased_merge (venueRecord overrides : JsObj) :
    (∀ k, k ∈ keysOf (spread venueRecord overrides)
        ↔ k ∈ keysOf venueRecord ∨ k ∈ keysOf overrides)
    ∧ (∀ k v, objLookup overrides k = some v
        → objLookup (spread venueRecord overrides) k = some v)
    ∧ (∀ k, objLookup overrides k = none
        → objLookup (spread venueRecord overrides) k = objLookup venueRecord k)
    ∧ spread venueRecord [] = venueRecord := by
  refine ⟨?_, ?_, ?_, spread_empty venueRecord⟩
  · intro k
    rw [mem_keysOf_iff, mem_keysOf_iff, mem_keysOf_iff, objLookup_spread]
    cases hk : objLookup overrides k <;> simp [hk]
  · intro k v hk
    rw [objLookup_spread, hk]
  · intro k hk
    rw [objLookup_spread, hk]

theorem resolve_right_biased_merge_witness :
    objLookup [("greeting", "Hi"), ("logo", "x.png")] "greeting" = some "Hi"
    ∧ objLookup
        (spread [("greeting", "Welcome"), ("venue", "SoulBar")]
          [("greeting", "Hi"), ("logo", "x.png")]) "greeting" = some "Hi" :=
  ⟨by decide,
    (resolve_right_biased_merge [("greeting", "Welcome"), ("venue", "SoulBar")]
        [("greeting", "Hi"), ("logo", "x.png")]).2.1 "greeting" "Hi" (by decide)⟩

/-- C4: a render request whose venue key has no record in the venue store
fails with a not-found error (the ENOENT rejection of the venue read,
sent by the catch block) and returns no HTML: no partial render reaches
the caller. -/
theorem render_unknown_venue_fails (st : Stores) (inliner : String → String)
    (templateKey venueKey : String) (hne : venueKey.isEmpty = false)
    (hv : st.venues venueKey = none) :
    (∃ p, renderHandler st inliner templateKey (some venueKey)
        = RenderResult.serverError (FsError.enoent p))
    ∧ ∀ b, renderHandler st inliner templateKey (some venueKey)
        ≠ RenderResult.html b := by
  have hmiss : venueParamMissing (some venueKey) = false := hne
  cases ht : loadTemplate st templateKey with
  | error e =>
    cases e with
    | enoent p =>
      refine ⟨⟨p, ?_⟩, ?_⟩
      · simp [renderHandler, hmiss, ht]
      · intro b hb
        simp [renderHandler, hmiss, ht] at hb
  | ok tpl =>
    have hv' : loadVenue st venueKey
        = .error (.enoent ("data/venues/" ++ venueKey ++ ".json")) := by
      simp [loadVenue, hv]
    refine ⟨⟨"data/venues/" ++ venueKey ++ ".json", ?_⟩, ?_⟩
    · simp [renderHandler, hmiss, ht, hv']
    · intro b hb
      simp [renderHandler, hmiss, ht, hv'] at hb

theorem render_unknown_venue_fails_witness :
    ("Unknown" : String).isEmpty = false
    ∧ soulBarStores.venues "Unknown" = none
    ∧ ∃ p, renderHandler soulBarStores id "confirmation" (some "Unknown")
        = RenderResult.serverError (FsError.enoent p) :=
  ⟨by decide, by decide,
    (render_unknown_venue_fails soulBarStores id "confirmation" "Unknown"
        (by decide) (by decide)).1⟩

/-- C5 counterexample: the preview handler loads the venue record
unconditionally, so a preview whose venue key has no record fails with the
venue read's ENOENT even though the overrides supply the value the
template needs — the claim that preview succeeds without a persisted venue
is false on the code. -/
theorem preview_requires_persisted_venue_cex :
    previewHandler soulBarStores id "confirmation" "Unknown"
        (some [("greeting", "Hi")])
      = PreviewResult.serverError (FsError.enoent "data/venues/Unknown.json") := by
  rfl

/-- C5 (amended): the preview handler requires a persisted venue record:
whenever the venue key has no record, preview fails with an ENOENT server
error and returns no `\x7bhtml\x7d` reply, regardless of the overrides. -/
theorem preview_fails_when_venue_absent (st : Stores) (inliner : String → String)
    (templateKey venueKey : String) (overrides : Option JsObj)
    (hv : st.venues venueKey = none) :
    (∃ p, previewHandler st inliner templateKey venueKey overrides
        = PreviewResult.serverError (FsError.enoent p))
    ∧ ∀ b, previewHandler st inliner templateKey venueKey overrides
        ≠ PreviewResult.ok b := by
  cases ht : loadTemplate st templateKey with
  | error e =>
    cases e with
    | enoent p =>
      refine ⟨⟨p, ?_⟩, ?_⟩
      · simp [previewHandler, ht]
      · intro b hb
        simp [previewHandler, ht] at hb
  | ok tpl =>
    have hv' : loadVenue st venueKey
        = .error (.enoent ("data/venues/" ++ venueKey ++ ".json")) := by
      simp [loadVenue, hv]
    refine ⟨⟨"data/venues/" ++ venueKey ++ ".json", ?_⟩, ?_⟩
    · simp [previewHandler, ht, hv']
    · intro b hb
      simp [previewHandler, ht, hv'] at hb

theorem preview_fails_when_venue_absent_witness :
    soulBarStores.venues "Unknown" = none
    ∧ ∃ p, previewHandler soulBarStores id "confirmation" "Unknown"
        (some [("greeting", "Hi")])
      = PreviewResult.serverError (FsError.enoent p) :=
  ⟨by decide,
    (preview_fails_when_venue_absent soulBarStores id "confirmation" "Unknown"
        (some [("greeting", "Hi")]) (by decide)).1⟩

/-- C6: the CSS inliner moves the rules of `<style>` blocks into the
`style` attributes of matching elements while retaining the `<style>`
blocks in the output (the collected rules of the output equal those of the
input, and a style block maps to itself), with pre-existing inline
declarations taking precedence over computed ones property by property
(and computed values filling the properties the inline attribute lacks);
on the spec's scenario `<style>p\x7bcolor:red\x7d</style><p>Hi</p>` the
`<p>` ends up carrying `color:red` inline while the `<style>` block
remains present. -/
theorem inliner_moves_and_retains_rules :
    (∀ doc : List HNode, collectNodes (inlineCss doc) = collectNodes doc)
    ∧ (∀ (rules : List CssRule) (rs : List CssRule),
        applyRules rules (HNode.styleTag rs) = HNode.styleTag rs)
    ∧ (∀ (existing computed : List CssDecl) (p v : String),
        existing.lookup p = some v
        → (mergeDecls existing computed).lookup p = some v)
    ∧ (∀ (existing computed : List CssDecl) (p : String),
        existing.lookup p = none
        → (mergeDecls existing computed).lookup p = computed.lookup p)
    ∧ (∀ (rules : List CssRule) (tag : String) (st : List CssDecl)
          (ch : List HNode),
        applyRules rules (HNode.elem tag st ch)
          = HNode.elem tag (mergeDecls st (computedFor rules tag))
              (applyRulesList rules ch))
    ∧ inlineCss [HNode.styleTag [⟨"p", [("color", "red")]⟩],
          HNode.elem "p" [] [HNode.text "Hi"]]
        = [HNode.styleTag [⟨"p", [("color", "red")]⟩],
           HNode.elem "p" [("color", "red")] [HNode.text "Hi"]] := by
  refine ⟨?_, ?_, ?_, ?_, ?_, ?_⟩
  · intro doc
    rw [inlineCss, collectNodes_applyRulesList]
  · intro rules rs
    rfl
  · intro existing computed p v h
    exact mergeDecls_existing_wins computed h
  · intro existing computed p h
    exact mergeDecls_computed_fills computed h
  · intro rules tag st ch
    rfl
  · simp [inlineCss, collectNodes, collectNode, applyRulesList, applyRules,
      mergeDecls, computedFor, List.filter, List.lookup]

theorem inliner_moves_and_retains_rules_witness :
    List.lookup "color" [("color", "blue")] = some "blue"
    ∧ (mergeDecls [("color", "blue")]
        [("color", "red"), ("font-family", "Arial")]).lookup "color"
      = some "blue" :=
  ⟨by decide,
    inliner_moves_and_retains_rules.2.2.1 [("color", "blue")]
      [("color", "red"), ("font-family", "Arial")] "color" "blue" (by decide)⟩

/-- C7: saving a venue record and loading it back returns that record, and
the save fully replaces any prior record under the key — the result is
independent of the prior store contents, so no merge with previously
stored values takes place. -/
theorem save_then_load_roundtrip (st st2 : Stores) (venueKey : String)
    (payload : JsObj) :
    loadVenue (saveVenue st venueKey payload) venueKey = .ok payload
    ∧ loadVenue (saveVenue st venueKey payload) venueKey
        = loadVenue (saveVenue st2 venueKey payload) venueKey := by
  constructor
  · simp [loadVenue, saveVenue]
  · simp [loadVenue, saveVenue]

/-- C8: the CSS inliner is idempotent on HTML that contains no `<style>`
block (already-inlined HTML has none introduced by the inliner itself,
which rewrites only `style` attributes). -/
theorem inliner_idempotent_on_no_style {doc : List HNode}
    (h : nodesNoStyle doc = true) :
    inlineCss (inlineCss doc) = inlineCss doc := by
  rw [inlineCss_of_noStyle h, inlineCss_of_noStyle h]

theorem inliner_idempotent_on_no_style_witness :
    nodesNoStyle [HNode.elem "p" [("color", "red")] [HNode.text "Hi"]] = true
    ∧ inlineCss (inlineCss [HNode.elem "p" [("color", "red")] [HNode.text "Hi"]])
        = inlineCss [HNode.elem "p" [("color", "red")] [HNode.text "Hi"]] :=
  ⟨by decide, inliner_idempotent_on_no_style (by decide)⟩

/-- C9 counterexample: the schema endpoint never consults the template
store, so the schema request for a template that does not exist is
answered exactly like one for an existing template that merely has no
schema — both reply `\x7bschema: null\x7d` — refuting the claim that the
two are reported differently. -/
theorem schema_absent_indistinguishable_cex :
    schemaHandler soulBarStores "confirmation"
      = schemaHandler soulBarStores "nonexistent"
    ∧ soulBarStores.templates "confirmation" = some confirmationTpl
    ∧ soulBarStores.templates "nonexistent" = none
    ∧ loadSchema soulBarStores "confirmation" = none :=
  ⟨rfl, rfl, rfl, rfl⟩

/-- C9 (amended): the schema store's load returns either the schema or an
explicit absent result, and absence is a valid non-error outcome (the
endpoint replies 200 with `\x7bschema: null\x7d`); however the endpoint
does not distinguish a nonexistent template from a template with no
schema — its reply is independent of the template and venue stores. -/
theorem schema_absent_non_error (st : Stores) (templateKey : String) :
    schemaHandler st templateKey = .ok (loadSchema st templateKey)
    ∧ (loadSchema st templateKey = none
        → schemaHandler st templateKey = .ok none)
    ∧ (∀ (t t2 : String → Option String) (v v2 : String → Option JsObj),
        schemaHandler ⟨t, v, st.schemas⟩ templateKey
          = schemaHandler ⟨t2, v2, st.schemas⟩ templateKey) := by
  refine ⟨rfl, ?_, ?_⟩
  · intro h
    rw [schemaHandler, loadSchema] at *
    rw [h]
  · intro t t2 v v2
    rfl

theorem schema_absent_non_error_witness :
    loadSchema soulBarStores "confirmation" = none
    ∧ schemaHandler soulBarStores "confirmation" = .ok none :=
  ⟨rfl, (schema_absent_non_error soulBarStores "confirmation").2.1 rfl⟩

/-- C10: a render request that omits the venue query parameter is answered
with 400 `Missing ?venue param`, no HTML, and no template or venue load is
performed — the response is independent of the stores and of the
inliner. -/
theorem render_missing_param_bad_request (st st2 : Stores)
    (inliner inliner2 : String → String) (templateKey : String) :
    renderHandler st inliner templateKey none
        = RenderResult.badRequest "Missing ?venue param"
    ∧ renderHandler st inliner templateKey none
        = renderHandler st2 inliner2 templateKey none
    ∧ ∀ b, renderHandler st inliner templateKey none ≠ RenderResult.html b := by
  refine ⟨rfl, rfl, ?_⟩
  intro b hb
  simp [renderHandler, venueParamMissing] at hb

theorem render_missing_param_bad_request_witness :
    renderHandler soulBarStores id "confirmation" none
      = RenderResult.badRequest "Missing ?venue param" :=
  (render_missing_param_bad_request soulBarStores soulBarStores id id
      "confirmation").1

end EmailTpl
